import Mathlib

/-!
Verification of the distributed sliding-window rate limiter.

This development formalises the rate-limiting core of the repository.  The
repository's own source contains two ad-hoc Redis middlewares:

* a list-based limiter (`rateLimiterMiddleware`) that stores a per-key list of
  `{timeStamp, requestCount}` entries, filters the list to the last window,
  sums the counts, and either rejects or appends/increments and writes back;
* a plain-counter limiter (`rateLimitMiddleware`) that stores a single integer
  with a TTL.

The specification standardises on a sliding-window-counter decision engine
(`RateLimitEngine` / `checkAndConsume`) operating against a shared store with
compare-and-swap; that engine is not present in the source tree, so it is
modelled here directly from the specification's data model, algorithm and
error-handling sections, and the list-based middleware is embedded from the
source.

Counts are `Nat`, timestamps are integer seconds (`Nat`) for the engine and
integer milliseconds (`Int`) for the list middleware (matching `Date.now()`),
and the weighted estimate is computed exactly over `ℚ`.
-/

set_option autoImplicit false

/- The rational arithmetic of the estimate is evaluated by `decide` in the
   concrete-scenario theorems; restore kernel reducibility of the `Rat`
   operations for this file. -/
attribute [local semireducible] Rat.mul Rat.add Rat.inv Rat.sub

set_option maxRecDepth 4000

/-! ### Data model and decision engine (modelled from the spec) -/

/-- Modelled from the spec: `RateLimitPolicy` (§3) — the per-request policy
`{maxRequests, windowSeconds}`; the spec's invariant that both are positive is
carried as hypotheses on the theorems that need it. -/
structure RateLimitPolicy where
  maxRequests : Nat
  windowSeconds : Nat
deriving DecidableEq

/-- Modelled from the spec: `WindowRecord` (§3) — the persisted per-key state:
the window the record currently represents, the count in that window, and the
count in the immediately preceding window. -/
structure WindowRecord where
  windowIndex : Int
  currentCount : Nat
  previousCount : Nat
deriving DecidableEq

/-- Modelled from the spec: the outcome of `checkAndConsume` (§4.3) — an
admit/reject decision plus a retry-after hint that is present only on
rejection. -/
structure Decision where
  allowed : Bool
  retryAfterSeconds : Option Int
deriving DecidableEq

/-- Modelled from the spec: the result of one engine decision (§4.2 step 7) —
either reject with a retry-after hint, or allow together with the record to be
written back. -/
inductive EngineStep where
  | reject (retryAfter : Int)
  | allow (newRecord : WindowRecord)
deriving DecidableEq

/-- Modelled from the spec: step 4 of the decision algorithm (§4.2) —
reconcile the stored record against the current window index, yielding the
pair `(previousCount, currentCount)` to use for the estimate.  An absent
record (and equally the spec's synthetic `{windowIndex := -1, 0, 0}` record)
yields `(0, 0)`. -/
def reconcile (cwi : Int) : Option WindowRecord → Nat × Nat
  | none => (0, 0)
  | some r =>
    if r.windowIndex = cwi then (r.previousCount, r.currentCount)
    else if r.windowIndex + 1 = cwi then (r.currentCount, 0)
    else (0, 0)

/-- Modelled from the spec: step 5 of §4.2 — `elapsedFraction = (now mod W) / W`,
an exact rational in `[0, 1)` when `W > 0`. -/
def elapsedFraction (t W : Nat) : ℚ := ((t % W : Nat) : ℚ) / ((W : Nat) : ℚ)

/-- Modelled from the spec: step 6 of §4.2 — the weighted estimate
`previousCount * (1 - elapsedFraction) + currentCount`. -/
def estimateQ (prev cur : Nat) (e : ℚ) : ℚ := (prev : ℚ) * (1 - e) + (cur : ℚ)

/-- Ceiling of a rational as an integer, computed as `(num + den - 1) / den`
with integer division (floor division, since `den > 0`).  Used for the
retry-after formula's `ceil`; `ceilQ_eq_ceil` below proves it equal to the
mathematical ceiling. -/
def ceilQ (q : ℚ) : Int := (q.num + (q.den : Int) - 1) / (q.den : Int)

/-- Modelled from the spec: the retry-after hint of §4.2 —
`ceil(W * (estimate - N + 1) / previousCount)` when `previousCount > 0`,
otherwise the time to the next window boundary `W - (now mod W)`. -/
def retryAfterVal (p : RateLimitPolicy) (t : Nat) (v : Option WindowRecord) : Int :=
  let W := p.windowSeconds
  let cwi : Int := ((t / W : Nat) : Int)
  let pc := (reconcile cwi v).1
  let cc := (reconcile cwi v).2
  let est := estimateQ pc cc (elapsedFraction t W)
  if 0 < pc then ceilQ ((W : ℚ) * (est - (p.maxRequests : ℚ) + 1) / (pc : ℚ))
  else (W : Int) - ((t % W : Nat) : Int)

/-- Modelled from the spec: the `RateLimitEngine` decision algorithm
(§4.2 steps 1–7) on the value read from the store — reconcile, estimate,
then reject (`estimate ≥ N`, record untouched) or allow (increment
`currentCount`, stamp the current window index, keep `previousCount`). -/
def engineDecide (p : RateLimitPolicy) (t : Nat) (v : Option WindowRecord) : EngineStep :=
  let W := p.windowSeconds
  let cwi : Int := ((t / W : Nat) : Int)
  let pc := (reconcile cwi v).1
  let cc := (reconcile cwi v).2
  let est := estimateQ pc cc (elapsedFraction t W)
  if (p.maxRequests : ℚ) ≤ est then .reject (retryAfterVal p t v)
  else .allow ⟨cwi, cc + 1, pc⟩

/-- Modelled from the spec: the shared store's state for one key (§4.1, §6) —
either absent, or a record together with its absolute expiry time
(`expiresAt`), which every successful write resets to `now + ttlSeconds`. -/
def Store : Type := Option (WindowRecord × Nat)

/-- Modelled from the spec: reading a key from the store (§4.1) — a record is
visible only before its expiry time; after that the store has autonomously
expired it. -/
def readStore (s : Store) (t : Nat) : Option WindowRecord :=
  match s with
  | none => none
  | some (r, expAt) => if t < expAt then some r else none

/-- Modelled from the spec: `checkAndConsume` (§4.3) for a single key in the
sequential (uncontended) case — read, decide via the engine, and on admission
write back the incremented record with `ttlSeconds = 2 * windowSeconds` (§3);
on rejection the store is left untouched. -/
def checkAndConsume (p : RateLimitPolicy) (t : Nat) (s : Store) : Decision × Store :=
  match engineDecide p t (readStore s t) with
  | .reject ra => (⟨false, some ra⟩, s)
  | .allow r' => (⟨true, none⟩, some (r', t + 2 * p.windowSeconds))

/-- One step of a sequence of checks: thread the store and count admissions. -/
def stepRun (p : RateLimitPolicy) (acc : Store × Nat) (t : Nat) : Store × Nat :=
  ((checkAndConsume p t acc.1).2,
   acc.2 + (if (checkAndConsume p t acc.1).1.allowed then 1 else 0))

/-- The concrete policy of the spec's scenario (§8): 10 requests per 60 s. -/
def pol10 : RateLimitPolicy := ⟨10, 60⟩

/-- Modelled from the spec: the error taxonomy of §7 relevant to the Facade —
`StoreUnavailable` (connection/timeout) and `StoreConflict` (CAS retries
exhausted).  `InvalidPolicy` is a caller programming error and is kept out of
the decision path. -/
inductive StoreError where
  | unavailable
  | conflict
deriving DecidableEq

/-- Modelled from the spec: the Facade configuration surface of §6 —
`{storeTimeoutMs, maxRetries, onStoreError}`, the last encoded as
`failOpen = true` for `"fail-open"` and `false` for `"fail-closed"`. -/
structure FacadeConfig where
  storeTimeoutMs : Nat
  maxRetries : Nat
  failOpen : Bool
deriving DecidableEq

/-- Modelled from the spec: the configured fallback decision (§4.3, §7) —
fail-open admits, fail-closed rejects. -/
def fallbackDecision (cfg : FacadeConfig) : Decision := ⟨cfg.failOpen, none⟩

/-- Modelled from the spec: the `RateLimiterFacade` boundary (§4.3, §7) on one
call, with the store interaction's outcome made explicit: either the store
read failed (`StoreUnavailable`/`StoreConflict`), in which case the configured
fallback decision is returned and nothing is written, or it delivered a store
state, in which case the engine decides as usual.  The function is total: no
store error ever escapes to the caller. -/
def facadeCheckAndConsume (cfg : FacadeConfig) (p : RateLimitPolicy) (t : Nat)
    (storeRead : Except StoreError Store) : Decision × Option Store :=
  match storeRead with
  | .error _ => (fallbackDecision cfg, none)
  | .ok s => ((checkAndConsume p t s).1, some (checkAndConsume p t s).2)

/-! ### The list-based middleware of the source (src/unnamed/part_001)

`rateLimiterMiddleware` keeps, per key, a JSON list of
`{timeStamp, requestCount}` entries in Redis (timestamps in milliseconds from
`Date.now()`).  On each request it filters the list to the last
`rateLimitWindow` seconds, sums the counts, and rejects with 429 or
appends/increments and writes the filtered list back.  If the stored list
exists but every entry is stale, the source dereferences
`requestsWithinWindow[length - 1]` which is `undefined`, so that path is a
thrown `TypeError`, modelled as `.jsError`. -/

/-- The source's `rateLimitWindow = 60` (seconds). -/
def rateLimitWindow : Int := 60

/-- The source's `maxRequests = 10` for the list-based middleware. -/
def maxRequestsMw : Int := 10

/-- One element of the source's per-key list: `{timeStamp, requestCount}`. -/
structure LogEntry where
  timeStamp : Int
  requestCount : Int
deriving DecidableEq

/-- Outcome of one `rateLimiterMiddleware` call: proceed (`next`) with the
list written back to Redis, reject with 429, or crash on
`undefined.timeStamp`. -/
inductive MwResult where
  | next (written : List LogEntry)
  | tooMany
  | jsError
deriving DecidableEq

/-- The body of the source's `rateLimiterMiddleware` callback
(src/unnamed/part_001, lines 195–233), as a function of the record read for
the key and of `currentRequestTime = Date.now()`. -/
def rateLimiterMiddleware (record : Option (List LogEntry))
    (currentRequestTime : Int) : MwResult :=
  match record with
  | none => .next [⟨currentRequestTime, 1⟩]
  | some data =>
    let windowStartTimestamp := currentRequestTime - rateLimitWindow * 1000
    let requestsWithinWindow :=
      data.filter (fun entry => windowStartTimestamp < entry.timeStamp)
    let totalWindowRequests :=
      (requestsWithinWindow.map (fun entry => entry.requestCount)).sum
    if maxRequestsMw ≤ totalWindowRequests then .tooMany
    else
      match requestsWithinWindow.getLast? with
      | none => .jsError
      | some lastRequestLog =>
        if currentRequestTime - 1000 < lastRequestLog.timeStamp then
          .next (requestsWithinWindow.dropLast ++
            [⟨lastRequestLog.timeStamp, lastRequestLog.requestCount + 1⟩])
        else
          .next (requestsWithinWindow ++ [⟨currentRequestTime, 1⟩])

/-! ### The concurrent CAS race (modelled from the spec)

The spec (§4.2 step 8, §5) makes concurrent `checkAndConsume` calls for one
key coordinate only through the store's linearizable compare-and-swap: each
call repeatedly reads, decides with the engine, and CASes the write keyed on
the value it read; a lost race retries from a fresh read up to
`maxRetries` attempts, and exhaustion degrades to the configured fallback.
The model below interleaves `k` such calls, all for the same key at the same
instant `t` against an initially absent record, as a small-step transition
system whose atomic actions are exactly the store operations. -/

/-- Modelled from the spec: the control state of one in-flight
`checkAndConsume` call in the CAS loop of §4.2 step 8 — about to read (with
`fails` lost races so far), holding a read value, or finished with a
decision. -/
inductive PState where
  | idle (fails : Nat)
  | got (v : Option WindowRecord) (fails : Nat)
  | decided (allowed : Bool)
deriving DecidableEq

/-- Modelled from the spec: the global state of `k` concurrent calls on one
key — the store's current record for the key plus every call's control
state. -/
structure CSys (k : Nat) where
  store : Option WindowRecord
  procs : Fin k → PState

/-- Modelled from the spec: one atomic action of the concurrent system (§4.2
step 8, §5): a call reads the store; or decides against its read value —
rejecting, or attempting the CAS keyed on that value, which succeeds exactly
when the store still equals it; a failed CAS either retries from a fresh read
(attempts left) or gives up to the configured fallback decision. -/
inductive CStep (p : RateLimitPolicy) (t : Nat) (cfg : FacadeConfig) (k : Nat) :
    CSys k → CSys k → Prop where
  | read {s s' : CSys k} (i : Fin k) (f : Nat) :
      s.procs i = .idle f →
      s'.store = s.store →
      s'.procs i = .got s.store f →
      (∀ j, j ≠ i → s'.procs j = s.procs j) →
      CStep p t cfg k s s'
  | rejectCall {s s' : CSys k} (i : Fin k) (v : Option WindowRecord) (f : Nat) (ra : Int) :
      s.procs i = .got v f →
      engineDecide p t v = .reject ra →
      s'.store = s.store →
      s'.procs i = .decided false →
      (∀ j, j ≠ i → s'.procs j = s.procs j) →
      CStep p t cfg k s s'
  | casOk {s s' : CSys k} (i : Fin k) (v : Option WindowRecord) (f : Nat) (r' : WindowRecord) :
      s.procs i = .got v f →
      engineDecide p t v = .allow r' →
      s.store = v →
      s'.store = some r' →
      s'.procs i = .decided true →
      (∀ j, j ≠ i → s'.procs j = s.procs j) →
      CStep p t cfg k s s'
  | casRetry {s s' : CSys k} (i : Fin k) (v : Option WindowRecord) (f : Nat) (r' : WindowRecord) :
      s.procs i = .got v f →
      engineDecide p t v = .allow r' →
      s.store ≠ v →
      f + 1 < cfg.maxRetries →
      s'.store = s.store →
      s'.procs i = .idle (f + 1) →
      (∀ j, j ≠ i → s'.procs j = s.procs j) →
      CStep p t cfg k s s'
  | casGiveUp {s s' : CSys k} (i : Fin k) (v : Option WindowRecord) (f : Nat) (r' : WindowRecord) :
      s.procs i = .got v f →
      engineDecide p t v = .allow r' →
      s.store ≠ v →
      cfg.maxRetries ≤ f + 1 →
      s'.store = s.store →
      s'.procs i = .decided cfg.failOpen →
      (∀ j, j ≠ i → s'.procs j = s.procs j) →
      CStep p t cfg k s s'

/-- The initial state: fresh key (absent record), every call about to read. -/
def cInit (k : Nat) : CSys k := ⟨none, fun _ => .idle 0⟩

/-- States reachable from the initial state by interleaved atomic actions. -/
def CReachable (p : RateLimitPolicy) (t : Nat) (cfg : FacadeConfig) (k : Nat)
    (s : CSys k) : Prop :=
  Relation.ReflTransGen (CStep p t cfg k) (cInit k) s

/-- Every call has finished. -/
def CTerminal {k : Nat} (s : CSys k) : Prop :=
  ∀ i, ∃ b, s.procs i = PState.decided b

instance {k : Nat} (s : CSys k) : Decidable (CTerminal s) :=
  decidable_of_iff (∀ i, ∃ b, s.procs i = PState.decided b) Iff.rfl

/-- The admitted-so-far count carried by a store value: absent reads as 0. -/
def countOf : Option WindowRecord → Nat
  | none => 0
  | some r => r.currentCount

/-- Number of calls that finished admitted. -/
def allowedCount {k : Nat} (s : CSys k) : Nat :=
  (Finset.univ.filter (fun j => s.procs j = PState.decided true)).card

/-- The store values that can occur in the race: absent, or a record of the
current window holding between 1 and `N` admissions with no previous-window
count (the key is fresh). -/
def goodVal (cwi : Int) (N : Nat) (v : Option WindowRecord) : Prop :=
  v = none ∨ ∃ c, 1 ≤ c ∧ c ≤ N ∧ v = some ⟨cwi, c, 0⟩

/-- The inductive invariant of the race: the store holds a good value whose
count equals the number of admitted calls and never exceeds the quota; each
call's failure count is dominated by the count it last read, which is
dominated by (and, if stale, strictly below) the store's count; and a
rejection can only have happened once the store count reached the quota. -/
def CInv (p : RateLimitPolicy) (t : Nat) (k : Nat) (s : CSys k) : Prop :=
  goodVal ((t / p.windowSeconds : Nat) : Int) p.maxRequests s.store ∧
  (∀ i f, s.procs i = .idle f → f ≤ countOf s.store) ∧
  (∀ i v f, s.procs i = .got v f →
    goodVal ((t / p.windowSeconds : Nat) : Int) p.maxRequests v ∧
    f ≤ countOf v ∧ countOf v ≤ countOf s.store ∧
    (v = s.store ∨ countOf v < countOf s.store)) ∧
  countOf s.store = allowedCount s ∧
  ((∃ i, s.procs i = .decided false) → p.maxRequests ≤ countOf s.store)

/-- The invariant for the single-window quota bound: `k` admissions so far are
matched by a record for window `m` whose `currentCount` dominates `k`, stays
within the quota, and remains readable for every timestamp of window `m`. -/
def InvC1 (p : RateLimitPolicy) (m : Nat) (s : Store) (k : Nat) : Prop :=
  k ≤ p.maxRequests ∧
  (k = 0 ∨ ∃ r expAt, s = some (r, expAt) ∧ r.windowIndex = (m : Int) ∧
    k ≤ r.currentCount ∧ r.currentCount ≤ p.maxRequests ∧
    ∀ t', t' / p.windowSeconds = m → t' < expAt)

/-- A 1-per-60s policy, used in the race counterexample and witness. -/
def polC2 : RateLimitPolicy := ⟨1, 60⟩

/-- A configuration with a single CAS attempt and fail-open fallback. -/
def cfgGiveUp : FacadeConfig := ⟨100, 1, true⟩

/-- A configuration with two CAS attempts (more than the quota of `polC2`). -/
def cfgRetry : FacadeConfig := ⟨100, 2, true⟩

/-- Race intermediate state: call 0 has read the absent record. -/
def cex1 : CSys 2 := ⟨none, fun i => if i = 0 then .got none 0 else .idle 0⟩

/-- Race intermediate state: both calls have read the absent record. -/
def cex2 : CSys 2 := ⟨none, fun _ => .got none 0⟩

/-- Race intermediate state: call 1 won the CAS and is admitted. -/
def cex3 : CSys 2 :=
  ⟨some ⟨0, 1, 0⟩, fun i => if i = 0 then .got none 0 else .decided true⟩

/-- Race final state: call 0 lost the CAS, exhausted its single attempt, and
was admitted by the fail-open fallback — both calls admitted. -/
def cex4 : CSys 2 := ⟨some ⟨0, 1, 0⟩, fun _ => .decided true⟩

/-- Witness intermediate state: the single call has read the absent record. -/
def cw1 : CSys 1 := ⟨none, fun _ => .got none 0⟩

/-- Witness final state: the single call CASed successfully and is admitted. -/
def cw2 : CSys 1 := ⟨some ⟨0, 1, 0⟩, fun _ => .decided true⟩

/-! ### Basic lemmas about the engine -/

theorem cac_reject (p : RateLimitPolicy) (t : Nat) (s : Store) (ra : Int)
    (hd : engineDecide p t (readStore s t) = .reject ra) :
    checkAndConsume p t s = (⟨false, some ra⟩, s) := by
  unfold checkAndConsume
  rw [hd]

theorem cac_allow (p : RateLimitPolicy) (t : Nat) (s : Store) (r' : WindowRecord)
    (hd : engineDecide p t (readStore s t) = .allow r') :
    checkAndConsume p t s = (⟨true, none⟩, some (r', t + 2 * p.windowSeconds)) := by
  unfold checkAndConsume
  rw [hd]

theorem engineDecide_eq (p : RateLimitPolicy) (t : Nat) (v : Option WindowRecord) :
    engineDecide p t v =
      if (p.maxRequests : ℚ) ≤
          estimateQ (reconcile ((t / p.windowSeconds : Nat) : Int) v).1
            (reconcile ((t / p.windowSeconds : Nat) : Int) v).2
            (elapsedFraction t p.windowSeconds)
      then .reject (retryAfterVal p t v)
      else .allow ⟨((t / p.windowSeconds : Nat) : Int),
        (reconcile ((t / p.windowSeconds : Nat) : Int) v).2 + 1,
        (reconcile ((t / p.windowSeconds : Nat) : Int) v).1⟩ := rfl

theorem retryAfterVal_eq (p : RateLimitPolicy) (t : Nat) (v : Option WindowRecord) :
    retryAfterVal p t v =
      if 0 < (reconcile ((t / p.windowSeconds : Nat) : Int) v).1
      then ceilQ ((p.windowSeconds : ℚ) *
        (estimateQ (reconcile ((t / p.windowSeconds : Nat) : Int) v).1
            (reconcile ((t / p.windowSeconds : Nat) : Int) v).2
            (elapsedFraction t p.windowSeconds) - (p.maxRequests : ℚ) + 1) /
        ((reconcile ((t / p.windowSeconds : Nat) : Int) v).1 : ℚ))
      else (p.windowSeconds : Int) - ((t % p.windowSeconds : Nat) : Int) := rfl

theorem engineDecide_reject_inv (p : RateLimitPolicy) (t : Nat)
    (v : Option WindowRecord) (ra : Int) (hd : engineDecide p t v = .reject ra) :
    ra = retryAfterVal p t v ∧
    (p.maxRequests : ℚ) ≤
      estimateQ (reconcile ((t / p.windowSeconds : Nat) : Int) v).1
        (reconcile ((t / p.windowSeconds : Nat) : Int) v).2
        (elapsedFraction t p.windowSeconds) := by
  rw [engineDecide_eq] at hd
  split at hd
  · exact ⟨(EngineStep.reject.injEq _ _).mp hd.symm, by assumption⟩
  · exact absurd hd (by simp)

theorem engineDecide_allow_inv (p : RateLimitPolicy) (t : Nat)
    (v : Option WindowRecord) (r' : WindowRecord) (hd : engineDecide p t v = .allow r') :
    r' = ⟨((t / p.windowSeconds : Nat) : Int),
        (reconcile ((t / p.windowSeconds : Nat) : Int) v).2 + 1,
        (reconcile ((t / p.windowSeconds : Nat) : Int) v).1⟩ ∧
    estimateQ (reconcile ((t / p.windowSeconds : Nat) : Int) v).1
        (reconcile ((t / p.windowSeconds : Nat) : Int) v).2
        (elapsedFraction t p.windowSeconds) < (p.maxRequests : ℚ) := by
  rw [engineDecide_eq] at hd
  split at hd
  · exact absurd hd (by simp)
  · exact ⟨((EngineStep.allow.injEq _ _).mp hd).symm, by rename_i hc; exact lt_of_not_le hc⟩

/-- `ceilQ` dominates its argument. -/
theorem le_ceilQ (q : ℚ) : q ≤ ((ceilQ q : Int) : ℚ) := by
  have hd : (0 : Int) < (q.den : Int) := by exact_mod_cast q.den_pos
  have hmod := Int.emod_nonneg (q.num + (q.den : Int) - 1) (ne_of_gt hd)
  have hmodlt := Int.emod_lt_of_pos (q.num + (q.den : Int) - 1) hd
  have hdiv := Int.ediv_add_emod (q.num + (q.den : Int) - 1) (q.den : Int)
  have hle : q.num ≤ (q.den : Int) * ceilQ q := by
    unfold ceilQ
    omega
  have h2 : (q.num : ℚ) ≤ ((q.den : Int) : ℚ) * ((ceilQ q : Int) : ℚ) := by
    exact_mod_cast hle
  conv_lhs => rw [← Rat.num_div_den q]
  rw [div_le_iff₀ (by exact_mod_cast hd)]
  push_cast at h2 ⊢
  linarith [h2, mul_comm ((q.den : ℚ)) ((ceilQ q : Int) : ℚ)]

/-- `ceilQ` exceeds its argument by less than one. -/
theorem ceilQ_lt (q : ℚ) : ((ceilQ q : Int) : ℚ) < q + 1 := by
  have hd : (0 : Int) < (q.den : Int) := by exact_mod_cast q.den_pos
  have hmod := Int.emod_nonneg (q.num + (q.den : Int) - 1) (ne_of_gt hd)
  have hdiv := Int.ediv_add_emod (q.num + (q.den : Int) - 1) (q.den : Int)
  have hub : (q.den : Int) * ceilQ q ≤ q.num + (q.den : Int) - 1 := by
    unfold ceilQ
    omega
  have hexp : (q.den : Int) * (ceilQ q - 1) = (q.den : Int) * ceilQ q - (q.den : Int) := by
    ring
  have hlt : (q.den : Int) * (ceilQ q - 1) < q.num := by omega
  have h2 : ((q.den : Int) : ℚ) * (((ceilQ q : Int) : ℚ) - 1) < (q.num : ℚ) := by
    exact_mod_cast hlt
  rw [← sub_lt_iff_lt_add]
  conv_rhs => rw [← Rat.num_div_den q]
  rw [lt_div_iff₀ (by exact_mod_cast hd)]
  push_cast at h2 ⊢
  linarith [h2, mul_comm (((ceilQ q : Int) : ℚ) - 1) ((q.den : ℚ))]

/-- `ceilQ` is the mathematical ceiling. -/
theorem ceilQ_eq_ceil (q : ℚ) : ceilQ q = ⌈q⌉ := by
  symm
  rw [Int.ceil_eq_iff]
  exact ⟨by linarith [ceilQ_lt q], le_ceilQ q⟩

/-- With a positive window, the estimate is at least the current count:
the previous window's contribution `prev * (1 - elapsedFraction)` is
nonnegative because `elapsedFraction < 1`. -/
theorem cur_le_estimate (p : RateLimitPolicy) (hW : 0 < p.windowSeconds)
    (prev cur : Nat) (t : Nat) :
    (cur : ℚ) ≤ estimateQ prev cur (elapsedFraction t p.windowSeconds) := by
  unfold estimateQ elapsedFraction
  have h1 : ((t % p.windowSeconds : Nat) : ℚ) / ((p.windowSeconds : Nat) : ℚ) < 1 := by
    rw [div_lt_one (by exact_mod_cast hW)]
    exact_mod_cast Nat.mod_lt t hW
  nlinarith [h1, (Nat.cast_nonneg prev : (0 : ℚ) ≤ (prev : ℚ))]

/-! ### Claim C1: quota bound within a single window -/

theorem invC1_step (p : RateLimitPolicy) (m : Nat) (hW : 0 < p.windowSeconds)
    (s : Store) (k : Nat) (t : Nat) (ht : t / p.windowSeconds = m)
    (hinv : InvC1 p m s k) :
    InvC1 p m (checkAndConsume p t s).2
      (k + if (checkAndConsume p t s).1.allowed then 1 else 0) := by
  cases hd : engineDecide p t (readStore s t) with
  | reject ra =>
    rw [cac_reject p t s ra hd]
    simpa using hinv
  | allow r' =>
    rw [cac_allow p t s r' hd]
    obtain ⟨hr', hest⟩ := engineDecide_allow_inv p t (readStore s t) r' hd
    have hcur_lt : (reconcile ((t / p.windowSeconds : Nat) : Int) (readStore s t)).2
        < p.maxRequests := by
      have hle := cur_le_estimate p hW
        (reconcile ((t / p.windowSeconds : Nat) : Int) (readStore s t)).1
        (reconcile ((t / p.windowSeconds : Nat) : Int) (readStore s t)).2 t
      have hlt : ((reconcile ((t / p.windowSeconds : Nat) : Int) (readStore s t)).2 : ℚ)
          < (p.maxRequests : ℚ) := lt_of_le_of_lt hle hest
      exact_mod_cast hlt
    have hk_le : k ≤ (reconcile ((t / p.windowSeconds : Nat) : Int) (readStore s t)).2 := by
      rcases hinv.2 with hk0 | ⟨r, expAt, hs, hwi, hkc, _, hexp⟩
      · omega
      · have hread : readStore s t = some r := by
          rw [hs]
          simp [readStore, hexp t ht]
        rw [hread]
        simp only [reconcile]
        rw [if_pos (by rw [hwi, ht])]
        exact hkc
    have hexp' : ∀ t', t' / p.windowSeconds = m → t' < t + 2 * p.windowSeconds := by
      intro t' ht'
      have e1 : t' % p.windowSeconds < p.windowSeconds := Nat.mod_lt t' hW
      have e2 : p.windowSeconds * (t' / p.windowSeconds) + t' % p.windowSeconds = t' :=
        Nat.div_add_mod t' p.windowSeconds
      rw [ht'] at e2
      have e3 : p.windowSeconds * m ≤ t := by
        have h4 := Nat.div_mul_le_self t p.windowSeconds
        rw [ht] at h4
        rw [mul_comm]
        exact h4
      generalize p.windowSeconds * m = pm at e2 e3
      omega
    refine ⟨by simp; omega, Or.inr ⟨r', t + 2 * p.windowSeconds, rfl, ?_, ?_, ?_, hexp'⟩⟩
    · rw [hr']
      show ((t / p.windowSeconds : Nat) : Int) = (m : Int)
      exact_mod_cast ht
    · rw [hr']
      show k + _ ≤ (reconcile ((t / p.windowSeconds : Nat) : Int) (readStore s t)).2 + 1
      simp only [if_true]
      omega
    · rw [hr']
      show (reconcile ((t / p.windowSeconds : Nat) : Int) (readStore s t)).2 + 1 ≤ p.maxRequests
      omega

theorem invC1_run (p : RateLimitPolicy) (m : Nat) (hW : 0 < p.windowSeconds) :
    ∀ (ts : List Nat) (s : Store) (k : Nat),
      (∀ t ∈ ts, t / p.windowSeconds = m) → InvC1 p m s k →
      (List.foldl (stepRun p) (s, k) ts).2 ≤ p.maxRequests := by
  intro ts
  induction ts with
  | nil =>
    intro s k _ hinv
    exact hinv.1
  | cons t ts ih =>
    intro s k hts hinv
    rw [List.foldl_cons]
    exact ih ((checkAndConsume p t s).2)
      (k + if (checkAndConsume p t s).1.allowed then 1 else 0)
      (fun u hu => hts u (by simp [hu]))
      (invC1_step p m hW s k t (hts t (by simp)) hinv)

/-- Claim C1: for any fixed policy, any starting store state, and any sequence
of checks whose timestamps all fall in one window `m`, the number of admitted
calls never exceeds `maxRequests`. -/
theorem claim_C1 (p : RateLimitPolicy) (m : Nat) (ts : List Nat) (s0 : Store)
    (hW : 0 < p.windowSeconds) (hts : ∀ t ∈ ts, t / p.windowSeconds = m) :
    (List.foldl (stepRun p) (s0, 0) ts).2 ≤ p.maxRequests :=
  invC1_run p m hW ts s0 0 hts ⟨Nat.zero_le _, Or.inl rfl⟩

/-- Claim C1 witness: 12 checks at `t = 0` under the 10-per-60s policy admit
at most 10. -/
theorem claim_C1_witness :
    0 < pol10.windowSeconds ∧
    (∀ t ∈ List.replicate 12 0, t / pol10.windowSeconds = 0) ∧
    (List.foldl (stepRun pol10) (none, 0) (List.replicate 12 0)).2 ≤ pol10.maxRequests :=
  ⟨by decide, by decide,
   claim_C1 pol10 0 (List.replicate 12 0) none (by decide) (by decide)⟩

/-! ### Claim C2: the concurrent race -/

theorem goodVal_countOf_le (cwi : Int) (N : Nat) (v : Option WindowRecord)
    (h : goodVal cwi N v) : countOf v ≤ N := by
  rcases h with rfl | ⟨c, _, h2, rfl⟩
  · exact Nat.zero_le N
  · simpa [countOf] using h2

theorem reconcile_goodVal (cwi : Int) (N : Nat) (v : Option WindowRecord)
    (h : goodVal cwi N v) : reconcile cwi v = (0, countOf v) := by
  rcases h with rfl | ⟨c, _, _, rfl⟩
  · rfl
  · simp [reconcile, countOf]

theorem estimateQ_zero_prev (cur : Nat) (e : ℚ) : estimateQ 0 cur e = (cur : ℚ) := by
  unfold estimateQ
  push_cast
  ring

theorem engineDecide_goodVal_allow (p : RateLimitPolicy) (t : Nat)
    (v : Option WindowRecord) (r' : WindowRecord)
    (hv : goodVal ((t / p.windowSeconds : Nat) : Int) p.maxRequests v)
    (hd : engineDecide p t v = .allow r') :
    r' = ⟨((t / p.windowSeconds : Nat) : Int), countOf v + 1, 0⟩ ∧
    countOf v < p.maxRequests := by
  obtain ⟨hr, hest⟩ := engineDecide_allow_inv p t v r' hd
  rw [reconcile_goodVal _ _ _ hv] at hr hest
  refine ⟨by simpa using hr, ?_⟩
  rw [estimateQ_zero_prev] at hest
  exact_mod_cast hest

theorem engineDecide_goodVal_reject (p : RateLimitPolicy) (t : Nat)
    (v : Option WindowRecord) (ra : Int)
    (hv : goodVal ((t / p.windowSeconds : Nat) : Int) p.maxRequests v)
    (hd : engineDecide p t v = .reject ra) :
    p.maxRequests ≤ countOf v := by
  obtain ⟨_, hest⟩ := engineDecide_reject_inv p t v ra hd
  rw [reconcile_goodVal _ _ _ hv] at hest
  rw [estimateQ_zero_prev] at hest
  exact_mod_cast hest

theorem allowedCount_eq_of_frame {k : Nat} (s s' : CSys k) (i : Fin k)
    (hold : s.procs i ≠ .decided true) (hnew : s'.procs i ≠ .decided true)
    (hframe : ∀ j, j ≠ i → s'.procs j = s.procs j) :
    allowedCount s' = allowedCount s := by
  unfold allowedCount
  congr 1
  ext j
  simp only [Finset.mem_filter, Finset.mem_univ, true_and]
  by_cases hji : j = i
  · subst hji
    exact ⟨fun h => absurd h hnew, fun h => absurd h hold⟩
  · rw [hframe j hji]

theorem allowedCount_succ_of_set_true {k : Nat} (s s' : CSys k) (i : Fin k)
    (hold : s.procs i ≠ .decided true) (hnew : s'.procs i = .decided true)
    (hframe : ∀ j, j ≠ i → s'.procs j = s.procs j) :
    allowedCount s' = allowedCount s + 1 := by
  unfold allowedCount
  have hins : Finset.univ.filter (fun j => s'.procs j = PState.decided true)
      = insert i (Finset.univ.filter (fun j => s.procs j = PState.decided true)) := by
    ext j
    simp only [Finset.mem_filter, Finset.mem_univ, true_and, Finset.mem_insert]
    by_cases hji : j = i
    · subst hji
      simp [hnew]
    · rw [hframe j hji]
      simp [hji]
  rw [hins, Finset.card_insert_of_not_mem (by simp [hold])]

theorem allowedCount_le {k : Nat} (s : CSys k) : allowedCount s ≤ k := by
  unfold allowedCount
  calc (Finset.univ.filter (fun j => s.procs j = PState.decided true)).card
      ≤ Finset.univ.card := Finset.card_filter_le _ _
    _ = k := by simp

theorem allowedCount_eq_card {k : Nat} (s : CSys k)
    (h : ∀ i, s.procs i = PState.decided true) : allowedCount s = k := by
  unfold allowedCount
  rw [Finset.filter_true_of_mem (fun j _ => h j)]
  simp

theorem cInv_step (p : RateLimitPolicy) (t : Nat) (cfg : FacadeConfig) (k : Nat)
    (hmr : p.maxRequests < cfg.maxRetries)
    (s s' : CSys k) (hstep : CStep p t cfg k s s') (hinv : CInv p t k s) :
    CInv p t k s' := by
  obtain ⟨hstore, hidle, hgot, hcount, hrejN⟩ := hinv
  cases hstep with
  | read i f hpi hst hpi' hframe =>
    refine ⟨by rw [hst]; exact hstore, ?_, ?_, ?_, ?_⟩
    · intro j f' hj
      by_cases hji : j = i
      · subst hji
        rw [hpi'] at hj
        exact absurd hj (by simp)
      · rw [hst]
        exact hidle j f' ((hframe j hji) ▸ hj)
    · intro j v f' hj
      by_cases hji : j = i
      · subst hji
        rw [hpi'] at hj
        obtain ⟨hv, hf⟩ := (PState.got.injEq _ _ _ _).mp hj.symm
        rw [hst, hv, hf]
        exact ⟨hstore, hidle _ f hpi, le_refl _, Or.inl rfl⟩
      · rw [hst]
        exact hgot j v f' ((hframe j hji) ▸ hj)
    · rw [hst, hcount]
      exact (allowedCount_eq_of_frame s s' i (by rw [hpi]; simp) (by rw [hpi']; simp)
        hframe).symm
    · rintro ⟨j, hj⟩
      rw [hst]
      by_cases hji : j = i
      · subst hji
        rw [hpi'] at hj
        exact absurd hj (by simp)
      · exact hrejN ⟨j, (hframe j hji) ▸ hj⟩
  | rejectCall i v f ra hpi hd hst hpi' hframe =>
    have hvinfo := hgot i v f hpi
    have hN_le : p.maxRequests ≤ countOf s.store :=
      le_trans (engineDecide_goodVal_reject p t v ra hvinfo.1 hd) hvinfo.2.2.1
    refine ⟨by rw [hst]; exact hstore, ?_, ?_, ?_, fun _ => by rw [hst]; exact hN_le⟩
    · intro j f' hj
      by_cases hji : j = i
      · subst hji
        rw [hpi'] at hj
        exact absurd hj (by simp)
      · rw [hst]
        exact hidle j f' ((hframe j hji) ▸ hj)
    · intro j v' f' hj
      by_cases hji : j = i
      · subst hji
        rw [hpi'] at hj
        exact absurd hj (by simp)
      · rw [hst]
        exact hgot j v' f' ((hframe j hji) ▸ hj)
    · rw [hst, hcount]
      exact (allowedCount_eq_of_frame s s' i (by rw [hpi]; simp) (by rw [hpi']; simp)
        hframe).symm
  | casOk i v f r' hpi hd hsv hst hpi' hframe =>
    have hvinfo := hgot i v f hpi
    obtain ⟨hr', hlt⟩ := engineDecide_goodVal_allow p t v r' hvinfo.1 hd
    have hcv : countOf s.store = countOf v := by rw [hsv]
    have hc' : countOf s'.store = countOf v + 1 := by
      rw [hst, hr']
      rfl
    refine ⟨?_, ?_, ?_, ?_, ?_⟩
    · rw [hst, hr']
      exact Or.inr ⟨countOf v + 1, Nat.succ_le_succ (Nat.zero_le _), hlt, rfl⟩
    · intro j f' hj
      by_cases hji : j = i
      · subst hji
        rw [hpi'] at hj
        exact absurd hj (by simp)
      · have := hidle j f' ((hframe j hji) ▸ hj)
        omega
    · intro j v' f' hj
      by_cases hji : j = i
      · subst hji
        rw [hpi'] at hj
        exact absurd hj (by simp)
      · obtain ⟨hgv, hf, hle, _⟩ := hgot j v' f' ((hframe j hji) ▸ hj)
        exact ⟨hgv, hf, by omega, Or.inr (by omega)⟩
    · rw [hc',
        allowedCount_succ_of_set_true s s' i (by rw [hpi]; simp) hpi' hframe,
        ← hcount, hcv]
    · rintro ⟨j, hj⟩
      by_cases hji : j = i
      · subst hji
        rw [hpi'] at hj
        exact absurd hj (by simp)
      · have := hrejN ⟨j, (hframe j hji) ▸ hj⟩
        omega
  | casRetry i v f r' hpi hd hne hfl hst hpi' hframe =>
    have hvinfo := hgot i v f hpi
    have hvlt : countOf v < countOf s.store := by
      rcases hvinfo.2.2.2 with heq | hlt
      · exact absurd heq.symm hne
      · exact hlt
    refine ⟨by rw [hst]; exact hstore, ?_, ?_, ?_, ?_⟩
    · intro j f' hj
      by_cases hji : j = i
      · subst hji
        rw [hpi'] at hj
        have hf' : f' = f + 1 := by
          have := (PState.idle.injEq _ _).mp hj.symm
          omega
        rw [hst]
        have := hvinfo.2.1
        omega
      · rw [hst]
        exact hidle j f' ((hframe j hji) ▸ hj)
    · intro j v' f' hj
      by_cases hji : j = i
      · subst hji
        rw [hpi'] at hj
        exact absurd hj (by simp)
      · rw [hst]
        exact hgot j v' f' ((hframe j hji) ▸ hj)
    · rw [hst, hcount]
      exact (allowedCount_eq_of_frame s s' i (by rw [hpi]; simp) (by rw [hpi']; simp)
        hframe).symm
    · rintro ⟨j, hj⟩
      rw [hst]
      by_cases hji : j = i
      · subst hji
        rw [hpi'] at hj
        exact absurd hj (by simp)
      · exact hrejN ⟨j, (hframe j hji) ▸ hj⟩
  | casGiveUp i v f r' hpi hd hne hge hst hpi' hframe =>
    exfalso
    have hvinfo := hgot i v f hpi
    have hvlt : countOf v < countOf s.store := by
      rcases hvinfo.2.2.2 with heq | hlt
      · exact absurd heq.symm hne
      · exact hlt
    have h1 := hvinfo.2.1
    have h2 := goodVal_countOf_le _ _ _ hstore
    omega

theorem cInv_init (p : RateLimitPolicy) (t : Nat) (k : Nat) : CInv p t k (cInit k) := by
  refine ⟨Or.inl rfl, ?_, ?_, ?_, ?_⟩
  · intro j f hj
    have hj' : PState.idle 0 = PState.idle f := hj
    injection hj' with h
    simp only [cInit, countOf]
    omega
  · intro j v f hj
    exact absurd hj (by simp [cInit])
  · unfold allowedCount
    rw [Finset.filter_false_of_mem (fun j _ => by simp [cInit])]
    rfl
  · rintro ⟨j, hj⟩
    exact absurd hj (by simp [cInit])

theorem cInv_reachable (p : RateLimitPolicy) (t : Nat) (cfg : FacadeConfig) (k : Nat)
    (hmr : p.maxRequests < cfg.maxRetries)
    (s : CSys k) (hr : CReachable p t cfg k s) : CInv p t k s := by
  unfold CReachable at hr
  induction hr with
  | refl => exact cInv_init p t k
  | tail _ hbc ih => exact cInv_step p t cfg k hmr _ _ hbc ih

/-- Claim C2 (amended): the write-back is a compare-and-swap keyed on the value
read at the start of the decision, and — provided the retry cap exceeds the
quota, so that no call exhausts its retries — any interleaving of any number
of concurrent checks on the same fresh key at the same instant against the
linearizable store admits exactly `min(N, numberOfCalls)` calls, never more. -/
theorem claim_C2 (p : RateLimitPolicy) (t : Nat) (cfg : FacadeConfig) (k : Nat)
    (hmr : p.maxRequests < cfg.maxRetries) (s : CSys k)
    (hr : CReachable p t cfg k s) (hterm : CTerminal s) :
    allowedCount s = min p.maxRequests k := by
  obtain ⟨hstore, hidle, hgot, hcount, hrejN⟩ := cInv_reachable p t cfg k hmr s hr
  have hcN : countOf s.store ≤ p.maxRequests := goodVal_countOf_le _ _ _ hstore
  have hak : allowedCount s ≤ k := allowedCount_le s
  rcases Nat.lt_or_ge (countOf s.store) p.maxRequests with hlt | hge
  · have hall : ∀ i, s.procs i = PState.decided true := by
      intro i
      obtain ⟨b, hb⟩ := hterm i
      cases b with
      | true => exact hb
      | false => exact absurd (hrejN ⟨i, hb⟩) (by omega)
    have hk := allowedCount_eq_card s hall
    rw [hk]
    have hck : countOf s.store = k := by rw [hcount, hk]
    exact (Nat.min_eq_right (by omega)).symm
  · have heq : countOf s.store = p.maxRequests := le_antisymm hcN hge
    rw [← hcount, heq]
    have hNk : p.maxRequests ≤ k := by
      rw [← heq, hcount]
      exact hak
    exact (Nat.min_eq_left hNk).symm

/-- Claim C2 counterexample: with quota `N = 1`, `maxRetries = 1` and
fail-open fallback, two concurrent checks on the same fresh key at the same
instant can BOTH be admitted — the loser of the CAS race exhausts its retry
budget and the fallback admits it — so the claimed `exactly min(N, calls)`
(here 1) fails without a proviso on the retry budget. -/
theorem claim_C2_counterexample :
    CReachable polC2 0 cfgGiveUp 2 cex4 ∧ CTerminal cex4 ∧
    allowedCount cex4 = 2 ∧ min polC2.maxRequests 2 = 1 := by
  refine ⟨?_, by decide, by decide, by decide⟩
  have h1 : CStep polC2 0 cfgGiveUp 2 (cInit 2) cex1 :=
    CStep.read 0 0 (by decide) (by decide) (by decide) (by decide)
  have h2 : CStep polC2 0 cfgGiveUp 2 cex1 cex2 :=
    CStep.read 1 0 (by decide) (by decide) (by decide) (by decide)
  have h3 : CStep polC2 0 cfgGiveUp 2 cex2 cex3 :=
    CStep.casOk 1 none 0 ⟨0, 1, 0⟩ (by decide) (by decide) (by decide) (by decide)
      (by decide) (by decide)
  have h4 : CStep polC2 0 cfgGiveUp 2 cex3 cex4 :=
    CStep.casGiveUp 0 none 0 ⟨0, 1, 0⟩ (by decide) (by decide) (by decide) (by decide)
      (by decide) (by decide) (by decide)
  exact Relation.ReflTransGen.tail
    (Relation.ReflTransGen.tail
      (Relation.ReflTransGen.tail
        (Relation.ReflTransGen.tail Relation.ReflTransGen.refl h1) h2) h3) h4

/-- Claim C2 witness: one call under a retry cap exceeding the quota is
admitted — `allowedCount = min 1 1`. -/
theorem claim_C2_witness :
    polC2.maxRequests < cfgRetry.maxRetries ∧ CTerminal cw2 ∧
    allowedCount cw2 = min polC2.maxRequests 1 := by
  have h1 : CStep polC2 0 cfgRetry 1 (cInit 1) cw1 :=
    CStep.read 0 0 (by decide) (by decide) (by decide) (by decide)
  have h2 : CStep polC2 0 cfgRetry 1 cw1 cw2 :=
    CStep.casOk 0 none 0 ⟨0, 1, 0⟩ (by decide) (by decide) (by decide) (by decide)
      (by decide) (by decide)
  exact ⟨by decide, by decide,
    claim_C2 polC2 0 cfgRetry 1 (by decide) cw2
      (Relation.ReflTransGen.tail
        (Relation.ReflTransGen.tail Relation.ReflTransGen.refl h1) h2)
      (by decide)⟩

/-! ### Claim C3: the concrete scenario -/

/-- Claim C3 counterexample: in the concrete scenario — policy
`{maxRequests := 10, windowSeconds := 60}`, fresh key — the first 10 checks at
`t = 0` are admitted and the 11th is rejected with hint 60, exactly as the
claim says; but the next check at `t = 60` is REJECTED, not admitted: the
window shift makes `previousCount = 10` and at the boundary
`elapsedFraction = 0`, so the estimate is `10 * (1 - 0) + 0 = 10 ≥ 10`. -/
theorem claim_C3_counterexample :
    (List.foldl (stepRun pol10) (none, 0) (List.replicate 10 0)).2 = 10 ∧
    (checkAndConsume pol10 0
      (List.foldl (stepRun pol10) (none, 0) (List.replicate 10 0)).1).1
      = ⟨false, some 60⟩ ∧
    (checkAndConsume pol10 60
      (checkAndConsume pol10 0
        (List.foldl (stepRun pol10) (none, 0) (List.replicate 10 0)).1).2).1.allowed
      = false :=
  ⟨by decide, by decide, by decide⟩

/-- Claim C3 (amended): under policy `{maxRequests := 10, windowSeconds := 60}`
on a fresh key, 10 sequential checks at `t = 0` are all admitted; the 11th
check at `t = 0` is rejected with `retryAfterSeconds = 60`; the check at
`t = 60` is still rejected (the previous window's count is undecayed exactly
at the boundary, estimate `= 10`); and the next check at `t = 61` is
admitted. -/
theorem claim_C3 :
    (List.foldl (stepRun pol10) (none, 0) (List.replicate 10 0)).2 = 10 ∧
    (checkAndConsume pol10 0
      (List.foldl (stepRun pol10) (none, 0) (List.replicate 10 0)).1).1
      = ⟨false, some 60⟩ ∧
    (checkAndConsume pol10 60
      (checkAndConsume pol10 0
        (List.foldl (stepRun pol10) (none, 0) (List.replicate 10 0)).1).2).1.allowed
      = false ∧
    (checkAndConsume pol10 61
      (checkAndConsume pol10 60
        (checkAndConsume pol10 0
          (List.foldl (stepRun pol10) (none, 0) (List.replicate 10 0)).1).2).2).1.allowed
      = true :=
  ⟨by decide, by decide, by decide, by decide⟩

/-! ### Claim C4: the retry-after hint -/

/-- Claim C4: every rejected check carries a `retryAfterSeconds` equal to the
spec's formula (ceiling form when the reconciled `previousCount` is positive,
time to the next window boundary otherwise), that value is nonnegative, and
the hint is present exactly when the call is not admitted. -/
theorem claim_C4 (p : RateLimitPolicy) (t : Nat) (s : Store)
    (hW : 0 < p.windowSeconds) :
    ((checkAndConsume p t s).1.allowed = false →
      (checkAndConsume p t s).1.retryAfterSeconds
        = some (retryAfterVal p t (readStore s t)) ∧
      0 ≤ retryAfterVal p t (readStore s t)) ∧
    ((checkAndConsume p t s).1.allowed = true →
      (checkAndConsume p t s).1.retryAfterSeconds = none) := by
  cases hd : engineDecide p t (readStore s t) with
  | allow r' =>
    rw [cac_allow p t s r' hd]
    exact ⟨fun h => absurd h (by simp), fun _ => rfl⟩
  | reject ra =>
    rw [cac_reject p t s ra hd]
    obtain ⟨hra, hest⟩ := engineDecide_reject_inv p t (readStore s t) ra hd
    refine ⟨fun _ => ⟨by rw [hra], ?_⟩, fun h => absurd h (by simp)⟩
    rw [retryAfterVal_eq]
    split
    · rename_i hpc
      set q := (p.windowSeconds : ℚ) *
        (estimateQ (reconcile ((t / p.windowSeconds : Nat) : Int) (readStore s t)).1
            (reconcile ((t / p.windowSeconds : Nat) : Int) (readStore s t)).2
            (elapsedFraction t p.windowSeconds) - (p.maxRequests : ℚ) + 1) /
        (((reconcile ((t / p.windowSeconds : Nat) : Int) (readStore s t)).1 : Nat) : ℚ)
        with hq
      have hqpos : 0 < q := by
        rw [hq]
        apply div_pos
        · apply mul_pos (by exact_mod_cast hW)
          linarith [hest]
        · exact_mod_cast hpc
      have hcpos := lt_of_lt_of_le hqpos (le_ceilQ q)
      exact_mod_cast hcpos.le
    · have hmod : t % p.windowSeconds < p.windowSeconds := Nat.mod_lt t hW
      omega

/-- Claim C4 witness: the 11th call of the concrete scenario is rejected with
hint `60 ≥ 0`, and the hint equals the formula value. -/
theorem claim_C4_witness :
    0 < pol10.windowSeconds ∧
    (checkAndConsume pol10 0 (some (⟨0, 10, 0⟩, 100))).1.allowed = false ∧
    (checkAndConsume pol10 0 (some (⟨0, 10, 0⟩, 100))).1.retryAfterSeconds
      = some (retryAfterVal pol10 0 (readStore (some (⟨0, 10, 0⟩, 100)) 0)) ∧
    0 ≤ retryAfterVal pol10 0 (readStore (some (⟨0, 10, 0⟩, 100)) 0) :=
  ⟨by decide, by decide,
   ((claim_C4 pol10 0 (some (⟨0, 10, 0⟩, 100)) (by decide)).1 (by decide)).1,
   ((claim_C4 pol10 0 (some (⟨0, 10, 0⟩, 100)) (by decide)).1 (by decide)).2⟩

/-! ### Claims C5, C6, C7 -/

/-- Claim C5: on every rejection the stored per-key record is not mutated —
the store state returned by `checkAndConsume` equals the store state passed
in. -/
theorem claim_C5 (p : RateLimitPolicy) (t : Nat) (s : Store)
    (h : (checkAndConsume p t s).1.allowed = false) :
    (checkAndConsume p t s).2 = s := by
  cases hd : engineDecide p t (readStore s t) with
  | reject ra => rw [cac_reject p t s ra hd]
  | allow r' => rw [cac_allow p t s r' hd] at h; exact absurd h (by simp)

/-- Claim C5 witness: a rejected call at a concrete input leaves the store
unchanged. -/
theorem claim_C5_witness :
    (checkAndConsume pol10 0 (some (⟨0, 10, 0⟩, 120))).1.allowed = false ∧
    (checkAndConsume pol10 0 (some (⟨0, 10, 0⟩, 120))).2 = some (⟨0, 10, 0⟩, 120) :=
  ⟨by decide, claim_C5 pol10 0 (some (⟨0, 10, 0⟩, 120)) (by decide)⟩

/-- Claim C6: when the store read errors (unreachable store or a failed call),
the Facade resolves the call to the configured fallback decision — fail-open
admits, fail-closed rejects — and, being a total function into `Decision`,
never propagates the store error to the caller. -/
theorem claim_C6 (tms mr : Nat) (p : RateLimitPolicy) (t : Nat) (e : StoreError) :
    (facadeCheckAndConsume ⟨tms, mr, true⟩ p t (.error e)).1.allowed = true ∧
    (facadeCheckAndConsume ⟨tms, mr, false⟩ p t (.error e)).1.allowed = false ∧
    (∀ cfg : FacadeConfig,
      (facadeCheckAndConsume cfg p t (.error e)).1 = fallbackDecision cfg ∧
      (facadeCheckAndConsume cfg p t (.error e)).2 = none) :=
  ⟨rfl, rfl, fun _ => ⟨rfl, rfl⟩⟩

/-- Claim C7: every admitted request's write-back carries the TTL — the store
state after an admission holds the new record with expiry exactly
`now + 2 * windowSeconds` (so any previous expiry is reset), the record stays
readable strictly before that time, and is expired (absent) from that time on,
i.e. after `2 * windowSeconds` of inactivity. -/
theorem claim_C7 (p : RateLimitPolicy) (t : Nat) (s : Store)
    (h : (checkAndConsume p t s).1.allowed = true) :
    ∃ r', (checkAndConsume p t s).2 = some (r', t + 2 * p.windowSeconds) ∧
      (∀ t', t' < t + 2 * p.windowSeconds →
        readStore (checkAndConsume p t s).2 t' = some r') ∧
      (∀ t', t + 2 * p.windowSeconds ≤ t' →
        readStore (checkAndConsume p t s).2 t' = none) := by
  cases hd : engineDecide p t (readStore s t) with
  | reject ra => rw [cac_reject p t s ra hd] at h; exact absurd h (by simp)
  | allow r' =>
    rw [cac_allow p t s r' hd]
    refine ⟨r', rfl, fun t' ht' => ?_, fun t' ht' => ?_⟩
    · simp [readStore, ht']
    · simp [readStore, Nat.not_lt.mpr ht']

/-- Claim C7 witness: a concrete admission writes the record with expiry
`0 + 2 * 60 = 120`. -/
theorem claim_C7_witness :
    (checkAndConsume pol10 0 none).1.allowed = true ∧
    ∃ r', (checkAndConsume pol10 0 none).2 = some (r', 0 + 2 * pol10.windowSeconds) ∧
      (∀ t', t' < 0 + 2 * pol10.windowSeconds →
        readStore (checkAndConsume pol10 0 none).2 t' = some r') ∧
      (∀ t', 0 + 2 * pol10.windowSeconds ≤ t' →
        readStore (checkAndConsume pol10 0 none).2 t' = none) :=
  ⟨by decide, claim_C7 pol10 0 none (by decide)⟩

/-! ### Claim C8: gap handling -/

/-- Claim C8: after a gap — the record absent or expired at read time, or at
least two windows old — reconciliation yields `previousCount = 0` and
`currentCount = 0`, and the next check is admitted (any positive quota). -/
theorem claim_C8 (p : RateLimitPolicy) (t : Nat) (s : Store)
    (hN : 0 < p.maxRequests)
    (hgap : readStore s t = none ∨
      ∃ r expAt, s = some (r, expAt) ∧ t < expAt ∧
        r.windowIndex + 2 ≤ ((t / p.windowSeconds : Nat) : Int)) :
    reconcile ((t / p.windowSeconds : Nat) : Int) (readStore s t) = (0, 0) ∧
    (checkAndConsume p t s).1.allowed = true := by
  have hrec : reconcile ((t / p.windowSeconds : Nat) : Int) (readStore s t) = (0, 0) := by
    rcases hgap with hnone | ⟨r, expAt, hs, hfresh, hold⟩
    · rw [hnone]; rfl
    · have hread : readStore s t = some r := by
        rw [hs]
        simp [readStore, hfresh]
      rw [hread]
      simp only [reconcile]
      rw [if_neg (by omega), if_neg (by omega)]
  have hest : estimateQ (reconcile ((t / p.windowSeconds : Nat) : Int) (readStore s t)).1
      (reconcile ((t / p.windowSeconds : Nat) : Int) (readStore s t)).2
      (elapsedFraction t p.windowSeconds) = 0 := by
    rw [hrec]
    unfold estimateQ
    push_cast
    ring
  have hd : engineDecide p t (readStore s t) =
      .allow ⟨((t / p.windowSeconds : Nat) : Int),
        (reconcile ((t / p.windowSeconds : Nat) : Int) (readStore s t)).2 + 1,
        (reconcile ((t / p.windowSeconds : Nat) : Int) (readStore s t)).1⟩ := by
    rw [engineDecide_eq, if_neg]
    rw [hest]
    simpa using hN.ne'
  rw [cac_allow p t s _ hd]
  exact ⟨hrec, rfl⟩

/-- Claim C8 witness: a record written in window 0 and long expired is
invisible at `t = 200`, reconciles to zeros, and the check is admitted. -/
theorem claim_C8_witness :
    0 < pol10.maxRequests ∧
    reconcile ((200 / pol10.windowSeconds : Nat) : Int)
      (readStore (some (⟨0, 9, 9⟩, 50)) 200) = (0, 0) ∧
    (checkAndConsume pol10 200 (some (⟨0, 9, 9⟩, 50))).1.allowed = true :=
  ⟨by decide,
   (claim_C8 pol10 200 (some (⟨0, 9, 9⟩, 50)) (by decide) (Or.inl (by decide))).1,
   (claim_C8 pol10 200 (some (⟨0, 9, 9⟩, 50)) (by decide) (Or.inl (by decide))).2⟩

/-! ### Claim C9: the estimate formula -/

/-- Claim C9: the admission estimate equals
`previousCount * (1 - elapsedFraction) + currentCount`, and with
`previousCount > 0` and `currentCount` fixed it is strictly decreasing in the
elapsed fraction, so capacity returns smoothly rather than by an abrupt
reset. -/
theorem claim_C9 (prev cur : Nat) (e1 e2 : ℚ) :
    estimateQ prev cur e1 = (prev : ℚ) * (1 - e1) + (cur : ℚ) ∧
    (0 < prev → e1 < e2 → estimateQ prev cur e2 < estimateQ prev cur e1) := by
  refine ⟨rfl, fun hp h12 => ?_⟩
  have hp' : (0 : ℚ) < (prev : ℚ) := by exact_mod_cast hp
  unfold estimateQ
  nlinarith

/-- Claim C9 witness: with `previousCount = 10`, the estimate at elapsed
fraction `1/2` is strictly below the estimate at `0`. -/
theorem claim_C9_witness :
    0 < 10 ∧ (0 : ℚ) < 1 / 2 ∧ estimateQ 10 0 (1 / 2) < estimateQ 10 0 0 :=
  ⟨by decide, by decide, (claim_C9 10 0 0 (1 / 2)).2 (by decide) (by decide)⟩

/-! ### Claim C10: the list middleware writes only fresh entries -/

/-- Claim C10: in the list-based limiter, every record written back (`next`)
contains only entries from the last `rateLimitWindow` seconds of the current
request time — nothing older than one window survives a write. -/
theorem claim_C10 (record : Option (List LogEntry)) (currentRequestTime : Int)
    (L : List LogEntry)
    (h : rateLimiterMiddleware record currentRequestTime = .next L) :
    ∀ e ∈ L, currentRequestTime - rateLimitWindow * 1000 < e.timeStamp := by
  intro e he
  cases record with
  | none =>
    simp only [rateLimiterMiddleware, MwResult.next.injEq] at h
    rw [← h] at he
    simp only [List.mem_singleton] at he
    subst he
    simp only [rateLimitWindow]
    omega
  | some data =>
    simp only [rateLimiterMiddleware] at h
    split at h
    · exact absurd h (by simp)
    · split at h
      · exact absurd h (by simp)
      · rename_i lastRequestLog hlast
        have hmemfilter : ∀ x ∈ data.filter
            (fun entry => currentRequestTime - rateLimitWindow * 1000 < entry.timeStamp),
            currentRequestTime - rateLimitWindow * 1000 < x.timeStamp := by
          intro x hx
          have hpx := (List.mem_filter.mp hx).2
          exact of_decide_eq_true hpx
        split at h <;>
          simp only [MwResult.next.injEq] at h <;> rw [← h] at he <;>
          rcases List.mem_append.mp he with hin | hin
        · exact hmemfilter e (List.dropLast_subset _ hin)
        · have hlastmem := List.mem_of_getLast?_eq_some hlast
          have hts := hmemfilter lastRequestLog hlastmem
          simp only [List.mem_singleton] at hin
          subst hin
          exact hts
        · exact hmemfilter e hin
        · simp only [List.mem_singleton] at hin
          subst hin
          simp only [rateLimitWindow]
          omega

/-- Claim C10 witness: a fresh key's first write contains only the current
request's entry, which lies within the window. -/
theorem claim_C10_witness :
    rateLimiterMiddleware none 5000 = .next [⟨5000, 1⟩] ∧
    ∀ e ∈ [(⟨5000, 1⟩ : LogEntry)], 5000 - rateLimitWindow * 1000 < e.timeStamp :=
  ⟨by decide, claim_C10 none 5000 [⟨5000, 1⟩] (by decide)⟩
